import Mathlib

/-!
Verification of the voice-sandwich pipeline core.

Shallow embedding of the event model (`events.py`), the agent stage
(`_agent_stream` in `main.py`), the synthesis stage (`_tts_stream` /
`process_upstream` in `main.py`), the transcription stage shutdown path
(`_stt_stream` in `main.py`, `VoicePipeline.buffer` in `_voice_agent.py`),
the AssemblyAI receive loop (`receive_messages` in `assemblyai_stt.py`),
the Hume TTS client (`hume_tts.py`), and the sequential turn loop of
`VoicePipeline` (`voice_agent.py`).

Async generators are embedded as pure functions from the list of items the
generator consumes to the list of items it yields (plus, where relevant,
the side calls it makes to a collaborator and the exception that ends the
stream).  External collaborators (the LangChain agent, the STT/TTS vendor
sockets) are oracles: functions supplied as parameters, or explicit action
traces.
-/

namespace VoiceSandwich

/-- Raw audio bytes, modelled as a list of byte values. -/
abbrev Bytes := List Nat

/-- One tool call attached to a streamed AI message chunk
(`message.tool_calls` entries in `main.py`), after the `.get` defaults of
lines 199-201 have been applied: an id, a name, and serialized args. -/
structure ToolCallData where
  id : String
  name : String
  args : String
deriving DecidableEq, Repr

/-- The tagged event union of `events.py` (`VoiceAgentEvent`), extended with
the three variants `main.py` imports from `events`
(`AgentEndEvent`, `ToolCallEvent`, `ToolResultEvent`).  Each variant carries
its payload and the creation timestamp `ts` (milliseconds). -/
inductive VoiceAgentEvent where
  | userInput (audio : Bytes) (ts : Nat)
  | sttChunk (transcript : String) (ts : Nat)
  | sttOutput (transcript : String) (ts : Nat)
  | agentChunk (text : String) (ts : Nat)
  | toolCall (id name args : String) (ts : Nat)
  | toolResult (toolCallId name result : String) (ts : Nat)
  | agentEnd (ts : Nat)
  | ttsChunk (audio : Bytes) (ts : Nat)
deriving DecidableEq, Repr

namespace VoiceAgentEvent

/-- The `type` tag of each event, as in the `Literal` fields of `events.py`
(and the `"tool_call"` / `"tool_result"` / `"agent_end"` tags used by
`main.py`). -/
def type : VoiceAgentEvent → String
  | userInput _ _ => "user_input"
  | sttChunk _ _ => "stt_chunk"
  | sttOutput _ _ => "stt_output"
  | agentChunk _ _ => "agent_chunk"
  | toolCall _ _ _ _ => "tool_call"
  | toolResult _ _ _ _ => "tool_result"
  | agentEnd _ => "agent_end"
  | ttsChunk _ _ => "tts_chunk"

/-- The creation timestamp field `ts`. -/
def ts : VoiceAgentEvent → Nat
  | userInput _ t => t
  | sttChunk _ t => t
  | sttOutput _ t => t
  | agentChunk _ t => t
  | toolCall _ _ _ t => t
  | toolResult _ _ _ t => t
  | agentEnd t => t
  | ttsChunk _ t => t

/-- The `transcript` field of STT events (`main.py` reads
`event.transcript` only under the `stt_output` type guard). -/
def transcript : VoiceAgentEvent → String
  | sttChunk s _ => s
  | sttOutput s _ => s
  | _ => ""

/-- The `text` field of agent chunk events (`process_upstream` reads
`event.text` only under the `agent_chunk` type guard). -/
def text : VoiceAgentEvent → String
  | agentChunk s _ => s
  | _ => ""

end VoiceAgentEvent

/-- `UserInputEvent.create` from `events.py`: stamps the payload with the
current time (`_now_ms()` passed here as `nowMs`). -/
def UserInputEvent.create (audio : Bytes) (nowMs : Nat) : VoiceAgentEvent :=
  VoiceAgentEvent.userInput audio nowMs

/-- `STTChunkEvent.create` from `events.py`. -/
def STTChunkEvent.create (transcript : String) (nowMs : Nat) : VoiceAgentEvent :=
  VoiceAgentEvent.sttChunk transcript nowMs

/-- `STTOutputEvent.create` from `events.py`. -/
def STTOutputEvent.create (transcript : String) (nowMs : Nat) : VoiceAgentEvent :=
  VoiceAgentEvent.sttOutput transcript nowMs

/-- `AgentChunkEvent.create` from `events.py`. -/
def AgentChunkEvent.create (text : String) (nowMs : Nat) : VoiceAgentEvent :=
  VoiceAgentEvent.agentChunk text nowMs

/-- `TTSChunkEvent.create` from `events.py`. -/
def TTSChunkEvent.create (audio : Bytes) (nowMs : Nat) : VoiceAgentEvent :=
  VoiceAgentEvent.ttsChunk audio nowMs

/-- Modelled from the spec: `AgentEndEvent.create` is imported by `main.py`
from `events` but the variant is absent from the `events.py` snapshot; the
spec describes `AgentTurnEnd{}` as a payload-free sentinel whose
construction helper stamps the current time. -/
def AgentEndEvent.create (nowMs : Nat) : VoiceAgentEvent :=
  VoiceAgentEvent.agentEnd nowMs

/-- Modelled from the spec: `ToolCallEvent.create` is imported by `main.py`
from `events` but absent from the `events.py` snapshot; the spec describes
`ToolCall{id, name, args}` stamped with the current time. -/
def ToolCallEvent.create (id name args : String) (nowMs : Nat) : VoiceAgentEvent :=
  VoiceAgentEvent.toolCall id name args nowMs

/-- Modelled from the spec: `ToolResultEvent.create` is imported by
`main.py` from `events` but absent from the `events.py` snapshot; the spec
describes `ToolResult{id, name, result}` stamped with the current time. -/
def ToolResultEvent.create (toolCallId name result : String) (nowMs : Nat) : VoiceAgentEvent :=
  VoiceAgentEvent.toolResult toolCallId name result nowMs

/-- One message streamed back by the agent collaborator
(`agent.astream(..., stream_mode="messages")` in `main.py`): either an
`AIMessage` chunk with its text and attached tool calls, or a
`ToolMessage` with the tool result.  The collaborator itself is external
(LangChain), so the stage is verified over an arbitrary oracle
`String → List AgentMessage` mapping a transcript to the streamed messages. -/
inductive AgentMessage where
  | ai (text : String) (toolCalls : List ToolCallData)
  | tool (toolCallId : String) (name : String) (content : String)
deriving DecidableEq, Repr

/-- The events `_agent_stream` yields for one streamed message
(`main.py` lines 190-210): an `AIMessage` yields its text as an agent
chunk followed by one tool-call event per attached tool call; a
`ToolMessage` yields one tool-result event. -/
def messageEvents (nowMs : Nat) : AgentMessage → List VoiceAgentEvent
  | AgentMessage.ai text tcs =>
      AgentChunkEvent.create text nowMs ::
        tcs.map (fun tc => ToolCallEvent.create tc.id tc.name tc.args nowMs)
  | AgentMessage.tool tcId name content =>
      [ToolResultEvent.create tcId name content nowMs]

/-- The events `_agent_stream` generates in reaction to one final
transcript (`main.py` lines 180-213): the events of every streamed
message, then exactly one agent-end sentinel. -/
def agentTurnEvents (a : String → List AgentMessage) (nowMs : Nat)
    (transcript : String) : List VoiceAgentEvent :=
  ((a transcript).flatMap (messageEvents nowMs)) ++ [AgentEndEvent.create nowMs]

/-- The `RuntimeError` message raised by `_agent_stream` when the agent is
not yet initialized (`main.py` line 179). -/
def agentErrorMsg : String := "Agent not initialized. Please wait for startup to complete."

/-- Embedding of `_agent_stream` (`main.py` lines 143-213) as a function
from the consumed input events to the pair of (events yielded, exception
that ended the generator, if any).  Each input event is yielded first
(line 173); a final transcript then triggers the agent reaction, or the
`RuntimeError` when `agent is None` (lines 176-179), which ends the
stream. -/
def agentStream (agent : Option (String → List AgentMessage)) (nowMs : Nat) :
    List VoiceAgentEvent → List VoiceAgentEvent × Option String
  | [] => ([], none)
  | e :: rest =>
    if e.type = "stt_output" then
      match agent with
      | none => ([e], some agentErrorMsg)
      | some a =>
          let tail := agentStream (some a) nowMs rest
          (e :: (agentTurnEvents a nowMs e.transcript ++ tail.1), tail.2)
    else
      let tail := agentStream agent nowMs rest
      (e :: tail.1, tail.2)

/-- The reaction of `_agent_stream` to a single input event: the agent
turn events when the event is a final transcript, nothing otherwise. -/
def agentReaction (a : String → List AgentMessage) (nowMs : Nat)
    (e : VoiceAgentEvent) : List VoiceAgentEvent :=
  if e.type = "stt_output" then agentTurnEvents a nowMs e.transcript else []

/-- Truthiness of Python `s.strip()`: true iff `s` contains at least one
non-whitespace character (stripping removes only leading and trailing
whitespace, so the result is non-empty exactly in that case). -/
def stripTruthy (s : String) : Bool := s.data.any (fun c => !c.isWhitespace)

/-- Boolean test for the `agent_end` tag, as checked by `process_upstream`. -/
def isAgentEnd (e : VoiceAgentEvent) : Bool := e.type = "agent_end"

/-- Boolean test for the `stt_output` tag, as checked by `_agent_stream`. -/
def isSttOutput (e : VoiceAgentEvent) : Bool := e.type = "stt_output"

/-- Embedding of `process_upstream` inside `_tts_stream` (`main.py` lines
245-265) as a function from the buffer state and the consumed input events
to the pair of (events yielded, texts sent to the TTS collaborator, in
call order).  Each event is yielded first; an `agent_chunk` appends its
text to the buffer; an `agent_end` sends `"".join(buffer)` to the
collaborator and resets the buffer. -/
def processUpstream (buffer : List String) :
    List VoiceAgentEvent → List VoiceAgentEvent × List String
  | [] => ([], [])
  | e :: rest =>
    let buffer1 := if e.type = "agent_chunk" then buffer ++ [e.text] else buffer
    if e.type = "agent_end" then
      let tail := processUpstream [] rest
      (e :: tail.1, String.join buffer1 :: tail.2)
    else
      let tail := processUpstream buffer1 rest
      (e :: tail.1, tail.2)

/-- The `text` payload of an `agent_chunk` event, `none` for all other
variants; used to state which texts the synthesis buffer collects. -/
def chunkText (e : VoiceAgentEvent) : Option String :=
  if e.type = "agent_chunk" then some e.text else none

/-- Modelled from the spec: `merge_async_iters` (imported by `main.py` from
`utils`, a module absent from the sources) is the StreamMerger — it runs
two producers concurrently and yields items in arrival order, preserving
FIFO order within each producer.  A merge outcome is determined by an
arrival schedule: `true` takes the next item of the first producer,
`false` the next item of the second; an exhausted producer leaves only the
other.  Every possible interleaving of the two streams is
`mergeSched sched` for some schedule. -/
def mergeSched : List Bool → List α → List α → List α
  | _, [], bs => bs
  | _, a :: as, [] => a :: as
  | [], a :: as, b :: bs => a :: as ++ b :: bs
  | true :: s, a :: as, b :: bs => a :: mergeSched s as (b :: bs)
  | false :: s, a :: as, b :: bs => b :: mergeSched s (a :: as) bs

/-- One action of the transcription stage, in the order the stage performs
them: yielding an event downstream, cancelling the background sender
task, awaiting the cancelled sender, closing the STT collaborator
connection. -/
inductive StageAction where
  | yieldEvent (e : VoiceAgentEvent)
  | cancelSender
  | awaitSender
  | closeConnection
deriving DecidableEq, Repr

/-- Embedding of `_stt_stream` (`main.py` lines 128-141) as the ordered
trace of stage actions for one run: the consumer loop yields each received
event, and the `finally` block then cancels the sender task, awaits it
(under `contextlib.suppress(CancelledError)`), and finally closes the STT
connection. -/
def sttStreamTrace (received : List VoiceAgentEvent) : List StageAction :=
  received.map StageAction.yieldEvent ++
    [StageAction.cancelSender, StageAction.awaitSender, StageAction.closeConnection]

/-- Embedding of the `finally` block of `VoicePipeline.buffer`
(`_voice_agent.py` lines 253-257): `send_task.cancel()`, then
`await send_task` under `contextlib.suppress(CancelledError)`, then
`await stt.close()`. -/
def bufferFinallyActions : List StageAction :=
  [StageAction.cancelSender, StageAction.awaitSender, StageAction.closeConnection]

/-- One message received from the AssemblyAI socket, after JSON decoding
(`receive_messages` in `assemblyai_stt.py`): a `Begin` session message, a
`Turn` with its transcript and `turn_is_formatted` flag, a `Termination`
message, a JSON-undecodable payload (logged and skipped), or any other
message (possibly carrying an error field, logged and skipped). -/
inductive AAIMessage where
  | sessionBegin (id : String)
  | turn (transcript : String) (formatted : Bool)
  | termination
  | malformed
  | other (err : Option String)
deriving DecidableEq, Repr

/-- Boolean test for the `Termination` message type. -/
def AAIMessage.isTermination : AAIMessage → Bool
  | AAIMessage.termination => true
  | _ => false

/-- Embedding of `AssemblyAISTTTransform.receive_messages`
(`assemblyai_stt.py` lines 73-132) as a function from the decoded message
sequence to the transcripts it yields: a formatted `Turn` yields its
transcript when `transcript and transcript.strip()` is truthy; an
unformatted `Turn` is only logged; `Termination` breaks the loop; all
other messages are skipped. -/
def receive_messages : List AAIMessage → List String
  | [] => []
  | AAIMessage.turn t fmt :: rest =>
      if fmt then
        if t != "" && stripTruthy t then t :: receive_messages rest
        else receive_messages rest
      else receive_messages rest
  | AAIMessage.termination :: _ => []
  | _ :: rest => receive_messages rest

/-- Embedding of the `send_audio` sender loop of `_stt_stream` (`main.py`
lines 107-122): every chunk read from the audio stream is forwarded to
the STT collaborator via `stt.send_audio(audio_chunk)`, with no filtering.
Returns the chunks forwarded, in order. -/
def send_audio_loop : List Bytes → List Bytes
  | [] => []
  | c :: rest => c :: send_audio_loop rest

/-- Embedding of `pump_audio` inside `VoicePipeline.buffer`
(`_voice_agent.py` lines 202-215): a falsy (empty) chunk is skipped with
`continue`; otherwise the chunk is appended to the shared `current_audio`
buffer and forwarded to the STT collaborator.  Returns the final buffer
contents and the chunks forwarded, in order. -/
def pump_audio (currentAudio : Bytes) : List Bytes → Bytes × List Bytes
  | [] => (currentAudio, [])
  | c :: rest =>
    if c.isEmpty then pump_audio currentAudio rest
    else
      let r := pump_audio (currentAudio ++ c) rest
      (r.1, c :: r.2)

/-- One observable step of the sequential turn loop of `VoicePipeline`
(`voice_agent.py`): the start and end of a `transcribe_fn` capture await,
the agent invocation, and the start and end of a `tts_fn` playback await.
`turn` is the value of `self.turn_number` for that cycle. -/
inductive TurnAction where
  | captureStart (turn : Nat)
  | captureEnd (turn : Nat) (transcript : String)
  | agentInvoke (turn : Nat) (transcript : String)
  | playbackStart (turn : Nat)
  | playbackEnd (turn : Nat)
deriving DecidableEq, Repr

/-- The turn number an action belongs to. -/
def TurnAction.turn : TurnAction → Nat
  | captureStart n => n
  | captureEnd n _ => n
  | agentInvoke n _ => n
  | playbackStart n => n
  | playbackEnd n => n

/-- The trace of one `while True` iteration of `VoicePipeline.run`
(`voice_agent.py` lines 218-236) driving the three-stage LCEL pipeline:
`_transcribe_stream` awaits `transcribe_fn(turn)` to completion (capture);
an empty transcript skips the turn; otherwise `_agent_stream` invokes the
agent and collects the full response; an empty stripped response skips
playback; otherwise `_tts_stream` awaits `tts_fn(response_text)`, which
plays the audio to completion, before the iteration ends.
`transcribeFn` gives the transcript captured for each turn number and
`agentFn` the agent's concatenated response text for a transcript. -/
def voiceTurnTrace (transcribeFn : Nat → String) (agentFn : String → String)
    (turn : Nat) : List TurnAction :=
  let t := transcribeFn turn
  [TurnAction.captureStart turn, TurnAction.captureEnd turn t] ++
    if t = "" then [] else
      TurnAction.agentInvoke turn t ::
        if stripTruthy (agentFn t) then
          [TurnAction.playbackStart turn, TurnAction.playbackEnd turn]
        else []

/-- The trace of the first `n` iterations of the `while True` loop of
`VoicePipeline.run`: iterations run strictly one after another, each
incrementing `self.turn_number`, starting at turn 1. -/
def voiceRunTrace (transcribeFn : Nat → String) (agentFn : String → String) :
    Nat → List TurnAction
  | 0 => []
  | n + 1 =>
      voiceRunTrace transcribeFn agentFn n ++ voiceTurnTrace transcribeFn agentFn (n + 1)

/-- The connection state of a `HumeTTS` instance (`hume_tts.py`):
whether `_close_signal` is set and whether `_ws` holds an open socket. -/
structure HumeTTSState where
  closeSignal : Bool
  wsOpen : Bool
deriving DecidableEq, Repr

/-- One observable side effect of the `HumeTTS` client on its socket. -/
inductive HumeAction where
  | wsConnect
  | sendUtterance (text : String)
  | sendFlush
  | sendCloseMessage
  | wsClose
deriving DecidableEq, Repr

/-- The `RuntimeError` message raised by `HumeTTS._ensure_connection` when
invoked after `close()` (`hume_tts.py` lines 199-202). -/
def humeClosedErrorMsg : String :=
  "HumeTTS tried establishing a connection after it was closed"

/-- Embedding of `HumeTTS._ensure_connection` (`hume_tts.py` lines
198-221): raises once the close signal is set; returns the existing
socket when it is open; otherwise connects (and starts the handler task). -/
def HumeTTS.ensure_connection (s : HumeTTSState) :
    Except String (HumeTTSState × List HumeAction) :=
  if s.closeSignal then Except.error humeClosedErrorMsg
  else if s.wsOpen then Except.ok (s, [])
  else Except.ok ({ s with wsOpen := true }, [HumeAction.wsConnect])

/-- Embedding of `HumeTTS.send_text` (`hume_tts.py` lines 63-92): `None`
returns immediately; text with an empty `strip()` returns immediately;
otherwise the connection is ensured and the utterance plus a flush message
are sent.  Returns the new state and the socket actions performed, or the
raised error. -/
def HumeTTS.send_text (s : HumeTTSState) (text : Option String) :
    Except String (HumeTTSState × List HumeAction) :=
  match text with
  | none => Except.ok (s, [])
  | some t =>
    if !stripTruthy t then Except.ok (s, [])
    else
      match HumeTTS.ensure_connection s with
      | Except.error msg => Except.error msg
      | Except.ok (s1, acts) =>
          Except.ok (s1, acts ++ [HumeAction.sendUtterance t, HumeAction.sendFlush])

/-- Embedding of `HumeTTS.close` (`hume_tts.py` lines 180-196): when the
socket is open, a close message is sent and the socket closed; `_ws` is
set to `None` and `_close_signal` is set. -/
def HumeTTS.close (s : HumeTTSState) : HumeTTSState × List HumeAction :=
  ({ closeSignal := true, wsOpen := false },
    if s.wsOpen then [HumeAction.sendCloseMessage, HumeAction.wsClose] else [])

/-! ### General helper lemmas -/

lemma foldl_append_eq (l : List String) :
    ∀ a : String, l.foldl (· ++ ·) a = a ++ String.join l := by
  induction l with
  | nil => intro a; simp [String.join, String.append_empty]
  | cons s rest ih =>
      intro a
      have h1 : (s :: rest).foldl (· ++ ·) a = rest.foldl (· ++ ·) (a ++ s) := rfl
      have h2 : String.join (s :: rest) = rest.foldl (· ++ ·) ("" ++ s) := rfl
      rw [h1, h2, ih (a ++ s), ih ("" ++ s), String.empty_append, String.append_assoc]

lemma join_cons (s : String) (l : List String) :
    String.join (s :: l) = s ++ String.join l := by
  have h : String.join (s :: l) = l.foldl (· ++ ·) ("" ++ s) := rfl
  rw [h, String.empty_append, foldl_append_eq]

lemma join_append (l1 l2 : List String) :
    String.join (l1 ++ l2) = String.join l1 ++ String.join l2 := by
  induction l1 with
  | nil => simp [String.join, String.empty_append]
  | cons s rest ih => simp only [List.cons_append, join_cons, ih, String.append_assoc]

lemma modifyHead_empty_append (l : List String) :
    l.modifyHead (fun x => "" ++ x) = l := by
  cases l with
  | nil => rfl
  | cons s rest => simp [List.modifyHead_cons, String.empty_append]

lemma sublist_flatMap_cons (f : α → List α) (l : List α) :
    l.Sublist (l.flatMap (fun e => e :: f e)) := by
  induction l with
  | nil => exact List.nil_sublist _
  | cons e rest ih =>
      rw [List.flatMap_cons]
      exact List.Sublist.cons₂ e (ih.trans (List.sublist_append_right _ _))

lemma sublist_mergeSched_left (s : List Bool) :
    ∀ (l r : List α), l.Sublist (mergeSched s l r) := by
  induction s with
  | nil =>
      intro l r
      cases l with
      | nil => exact List.nil_sublist _
      | cons a as =>
          cases r with
          | nil => exact List.Sublist.refl _
          | cons b bs => exact List.sublist_append_left _ _
  | cons c s ih =>
      intro l r
      cases l with
      | nil => exact List.nil_sublist _
      | cons a as =>
          cases r with
          | nil =>
              cases c with
              | true => exact List.Sublist.refl _
              | false => exact List.Sublist.refl _
          | cons b bs =>
              cases c with
              | true => exact List.Sublist.cons₂ a (ih as (b :: bs))
              | false => exact List.Sublist.cons b (ih (a :: as) bs)

/-! ### Agent stage lemmas -/

lemma agentStream_fst (a : String → List AgentMessage) (nowMs : Nat) :
    ∀ input : List VoiceAgentEvent,
      (agentStream (some a) nowMs input).1
        = input.flatMap (fun e => e :: agentReaction a nowMs e) := by
  intro input
  induction input with
  | nil => rfl
  | cons e rest ih =>
      by_cases h : e.type = "stt_output"
      · simp [agentStream, h, agentReaction, ih]
      · simp [agentStream, h, agentReaction, ih]

lemma processUpstream_fst :
    ∀ (input : List VoiceAgentEvent) (buf : List String),
      (processUpstream buf input).1 = input := by
  intro input
  induction input with
  | nil => intro buf; rfl
  | cons e rest ih =>
      intro buf
      by_cases h : e.type = "agent_end" <;> simp [processUpstream, h, ih]

/-- C1: Passthrough fidelity.  For every input event sequence fed to the
AgentStage (`_agent_stream`, with an initialized agent oracle `a`) the
output is exactly the input sequence with the events generated in
reaction to each input event spliced in directly after it, so the input
is a subsequence of the output in original relative order and each input
event is re-emitted before its reaction events; and for the
SynthesisStage (`_tts_stream`), whose output is the merge (under any
arrival schedule) of the `process_upstream` passthrough with the TTS
audio events, the input is likewise a subsequence of the output,
interleaved only with newly generated events. -/
theorem passthrough_fidelity (a : String → List AgentMessage) (nowMs : Nat)
    (input : List VoiceAgentEvent) (sched : List Bool)
    (ttsAudioEvents : List VoiceAgentEvent) :
    (agentStream (some a) nowMs input).1
        = input.flatMap (fun e => e :: agentReaction a nowMs e)
      ∧ input.Sublist (agentStream (some a) nowMs input).1
      ∧ input.Sublist (mergeSched sched (processUpstream [] input).1 ttsAudioEvents) := by
  refine ⟨agentStream_fst a nowMs input, ?_, ?_⟩
  · rw [agentStream_fst]
    exact sublist_flatMap_cons _ _
  · rw [processUpstream_fst]
    exact sublist_mergeSched_left sched input ttsAudioEvents

lemma messageEvents_countP_end (nowMs : Nat) (m : AgentMessage) :
    (messageEvents nowMs m).countP isAgentEnd = 0 := by
  rw [List.countP_eq_zero]
  intro x hx
  cases m with
  | ai text tcs =>
      simp only [messageEvents, AgentChunkEvent.create, ToolCallEvent.create,
        List.mem_cons, List.mem_map] at hx
      rcases hx with h | ⟨tc, _, h⟩
      · subst h
        simp [isAgentEnd, VoiceAgentEvent.type]
      · subst h
        simp [isAgentEnd, VoiceAgentEvent.type]
  | tool tcId name content =>
      simp only [messageEvents, ToolResultEvent.create, List.mem_singleton] at hx
      subst hx
      simp [isAgentEnd, VoiceAgentEvent.type]

lemma flatMap_messageEvents_countP (nowMs : Nat) (ms : List AgentMessage) :
    ((ms.flatMap (messageEvents nowMs)).countP isAgentEnd) = 0 := by
  induction ms with
  | nil => rfl
  | cons m rest ih =>
      rw [List.flatMap_cons, List.countP_append, ih, messageEvents_countP_end]

lemma agentTurnEvents_countP (a : String → List AgentMessage) (nowMs : Nat)
    (t : String) : (agentTurnEvents a nowMs t).countP isAgentEnd = 1 := by
  rw [agentTurnEvents, List.countP_append, flatMap_messageEvents_countP]
  simp [AgentEndEvent.create, List.countP_cons, isAgentEnd, VoiceAgentEvent.type]

lemma agentStream_countP_end (a : String → List AgentMessage) (nowMs : Nat) :
    ∀ input : List VoiceAgentEvent,
      (agentStream (some a) nowMs input).1.countP isAgentEnd
        = input.countP isAgentEnd + input.countP isSttOutput := by
  intro input
  induction input with
  | nil => rfl
  | cons e rest ih =>
      by_cases h : e.type = "stt_output"
      · have hend : isAgentEnd e = false := by
          simp [isAgentEnd, h]
        have hstt : isSttOutput e = true := by
          simp [isSttOutput, h]
        have hunf : (agentStream (some a) nowMs (e :: rest)).1
            = e :: (agentTurnEvents a nowMs e.transcript
                ++ (agentStream (some a) nowMs rest).1) := by
          simp [agentStream, h]
        rw [hunf, List.countP_cons, List.countP_append, agentTurnEvents_countP, ih,
          List.countP_cons, List.countP_cons, hend, hstt]
        simp
        omega
      · have hstt : isSttOutput e = false := by
          simp [isSttOutput, h]
        have hunf : (agentStream (some a) nowMs (e :: rest)).1
            = e :: (agentStream (some a) nowMs rest).1 := by
          simp [agentStream, h]
        rw [hunf, List.countP_cons, ih, List.countP_cons, List.countP_cons, hstt]
        simp
        omega

/-- C2: Turn-end invariant.  When the AgentStage's input contains no
turn-end events (as holds for the transcription stage's output), the
number of `agent_end` events in `_agent_stream`'s output equals the
number of `stt_output` (final transcript) events consumed, so exactly one
turn-end is emitted per final transcript and none without one; moreover
the events generated for one final transcript always consist of the
generated `agent_chunk`/`tool_call`/`tool_result` events followed by the
single `agent_end` sentinel, so the turn-end comes after all of them. -/
theorem turn_end_invariant (a : String → List AgentMessage) (nowMs : Nat)
    (input : List VoiceAgentEvent) (h : input.countP isAgentEnd = 0) :
    ((agentStream (some a) nowMs input).1.countP isAgentEnd
        = input.countP isSttOutput)
      ∧ ∀ t : String, ∃ body : List VoiceAgentEvent,
          agentTurnEvents a nowMs t = body ++ [AgentEndEvent.create nowMs]
            ∧ body.countP isAgentEnd = 0 := by
  constructor
  · rw [agentStream_countP_end, h, Nat.zero_add]
  · intro t
    exact ⟨(a t).flatMap (messageEvents nowMs), rfl, flatMap_messageEvents_countP nowMs (a t)⟩

/-- Witness for `turn_end_invariant` at a concrete input: one final
transcript in, and the output carries exactly one `agent_end`. -/
theorem turn_end_invariant_witness :
    (agentStream (some fun t => [AgentMessage.ai t []]) 7
        [VoiceAgentEvent.sttOutput "hi" 2]).1.countP isAgentEnd
      = [VoiceAgentEvent.sttOutput "hi" 2].countP isSttOutput :=
  (turn_end_invariant (fun t => [AgentMessage.ai t []]) 7
    [VoiceAgentEvent.sttOutput "hi" 2] (by decide)).1

/-! ### Synthesis stage lemmas -/

lemma processUpstream_snd :
    ∀ (input : List VoiceAgentEvent) (buf : List String),
      (processUpstream buf input).2
        = (((input.splitOnP isAgentEnd).dropLast).map
            (fun seg => String.join (seg.filterMap chunkText))).modifyHead
              (fun x => String.join buf ++ x) := by
  intro input
  induction input with
  | nil =>
      intro buf
      simp [processUpstream, List.splitOnP_nil]
  | cons e rest ih =>
      intro buf
      by_cases hEnd : e.type = "agent_end"
      · have hp : isAgentEnd e = true := by simp [isAgentEnd, hEnd]
        have hchunk : ¬ e.type = "agent_chunk" := by rw [hEnd]; simp
        have hL : (processUpstream buf (e :: rest)).2
            = String.join buf :: (processUpstream [] rest).2 := by
          simp [processUpstream, hEnd, hchunk]
        have hIs : (processUpstream [] rest).2
            = ((rest.splitOnP isAgentEnd).dropLast).map
                (fun seg => String.join (seg.filterMap chunkText)) := by
          rw [ih [], show String.join [] = "" from rfl, modifyHead_empty_append]
        rw [hL, hIs, List.splitOnP_cons]
        simp only [hp, if_true]
        rw [List.dropLast_cons_of_ne_nil (List.splitOnP_ne_nil _ _)]
        simp [List.modifyHead_cons, String.append_empty,
          show String.join [] = "" from rfl]
      · have hp : isAgentEnd e = false := by simp [isAgentEnd, hEnd]
        by_cases hChunk : e.type = "agent_chunk"
        · have hL : (processUpstream buf (e :: rest)).2
              = (processUpstream (buf ++ [e.text]) rest).2 := by
            simp [processUpstream, hEnd, hChunk]
          have hjoin : String.join (buf ++ [e.text]) = String.join buf ++ e.text := by
            rw [join_append, join_cons, show String.join [] = "" from rfl,
              String.append_empty]
          have hct : chunkText e = some e.text := by simp [chunkText, hChunk]
          rw [hL, ih (buf ++ [e.text]), hjoin, List.splitOnP_cons]
          simp only [hp, if_false, Bool.false_eq_true]
          rcases hsegs : rest.splitOnP isAgentEnd with _ | ⟨s0, tl⟩
          · exact absurd hsegs (List.splitOnP_ne_nil _ _)
          · cases tl with
            | nil => simp
            | cons t1 tl' =>
                simp [List.modifyHead_cons, List.dropLast_cons₂, hct, join_cons,
                  String.append_assoc]
        · have hL : (processUpstream buf (e :: rest)).2
              = (processUpstream buf rest).2 := by
            simp [processUpstream, hEnd, hChunk]
          have hct : chunkText e = none := by simp [chunkText, hChunk]
          rw [hL, ih buf, List.splitOnP_cons]
          simp only [hp, if_false, Bool.false_eq_true]
          rcases hsegs : rest.splitOnP isAgentEnd with _ | ⟨s0, tl⟩
          · exact absurd hsegs (List.splitOnP_ne_nil _ _)
          · cases tl with
            | nil => simp
            | cons t1 tl' =>
                simp [List.modifyHead_cons, List.dropLast_cons₂, hct]

/-- C3: Synthesis batching.  In `process_upstream`, agent text chunks
cause no synthesis call by themselves: the texts sent to the TTS
collaborator are, in order, one per `agent_end` event of the input, and
the text sent at each `agent_end` is the concatenation, in arrival
order, of the `agent_chunk` texts of the segment since the previous
`agent_end` (or since stage start); the trailing segment after the last
`agent_end` is never sent, and the per-turn segments are disjoint, so
each chunk's text is sent at most once. -/
theorem synthesis_batching (input : List VoiceAgentEvent) :
    (processUpstream [] input).2
      = ((input.splitOnP isAgentEnd).dropLast).map
          (fun seg => String.join (seg.filterMap chunkText)) := by
  rw [processUpstream_snd, show String.join [] = "" from rfl, modifyHead_empty_append]

/-! ### Turn loop lemmas -/

lemma mem_voiceTurnTrace_turn (f : Nat → String) (g : String → String) (k : Nat) :
    ∀ x ∈ voiceTurnTrace f g k, x.turn = k := by
  intro x hx
  unfold voiceTurnTrace at hx
  rcases List.mem_append.1 hx with h | h
  · rcases List.mem_cons.1 h with h1 | h1
    · subst h1; rfl
    · rcases List.mem_cons.1 h1 with h2 | h2
      · subst h2; rfl
      · exact absurd h2 (List.not_mem_nil x)
  · split at h
    · exact absurd h (List.not_mem_nil x)
    · rcases List.mem_cons.1 h with h1 | h1
      · subst h1; rfl
      · split at h1
        · rcases List.mem_cons.1 h1 with h2 | h2
          · subst h2; rfl
          · rcases List.mem_cons.1 h2 with h3 | h3
            · subst h3; rfl
            · exact absurd h3 (List.not_mem_nil x)
        · exact absurd h1 (List.not_mem_nil x)

lemma pairwise_turn_const {k : Nat} :
    ∀ l : List TurnAction, (∀ x ∈ l, x.turn = k) →
      List.Pairwise (fun x y => x.turn ≤ y.turn) l := by
  intro l
  induction l with
  | nil => intro _; exact List.Pairwise.nil
  | cons a tl ih =>
      intro h
      refine List.Pairwise.cons ?_ (ih fun x hx => h x (List.mem_cons_of_mem a hx))
      intro y hy
      rw [h a (List.mem_cons_self a tl), h y (List.mem_cons_of_mem a hy)]

lemma mem_voiceRunTrace_turn_le (f : Nat → String) (g : String → String) :
    ∀ n, ∀ x ∈ voiceRunTrace f g n, x.turn ≤ n := by
  intro n
  induction n with
  | zero =>
      intro x hx
      simp only [voiceRunTrace] at hx
      exact absurd hx (List.not_mem_nil x)
  | succ n ih =>
      intro x hx
      simp only [voiceRunTrace] at hx
      rcases List.mem_append.1 hx with h | h
      · exact (ih x h).trans (Nat.le_succ n)
      · rw [mem_voiceTurnTrace_turn f g (n + 1) x h]

/-- C4 counterexample: for the concrete run in which turn 1 captures
"hi" and turn 2 captures "stop" (the barge-in scenario of the claim),
the trace of `VoicePipeline.run` is strictly sequential — the capture
await for turn 2 begins only after the playback of turn 1 has ended
(its index in the trace is strictly larger), so no capture task for the
next turn runs concurrently with playback and no early-stop signal or
Interrupted transition exists. -/
theorem barge_in_counterexample :
    (voiceRunTrace (fun n => if n = 1 then "hi" else "stop") (fun _ => "resp") 2
      = [TurnAction.captureStart 1, TurnAction.captureEnd 1 "hi",
         TurnAction.agentInvoke 1 "hi", TurnAction.playbackStart 1,
         TurnAction.playbackEnd 1, TurnAction.captureStart 2,
         TurnAction.captureEnd 2 "stop", TurnAction.agentInvoke 2 "stop",
         TurnAction.playbackStart 2, TurnAction.playbackEnd 2])
    ∧ (voiceRunTrace (fun n => if n = 1 then "hi" else "stop") (fun _ => "resp") 2).indexOf
          (TurnAction.playbackEnd 1)
        < (voiceRunTrace (fun n => if n = 1 then "hi" else "stop") (fun _ => "resp") 2).indexOf
          (TurnAction.captureStart 2) := by decide

/-- C4 amended: turn handling in `VoicePipeline.run` is sequential, not
racing.  In every run trace the turn numbers are monotone — every action
of turn `k` (including the end of its playback) precedes every action of
turn `k+1` (including the start of its capture) — and each turn's block
begins with its capture start, so capture for the next turn never runs
concurrently with the current playback and a transcript is captured only
after the previous response has finished playing. -/
theorem sequential_turns (f : Nat → String) (g : String → String) (n : Nat) :
    List.Pairwise (fun x y => TurnAction.turn x ≤ TurnAction.turn y)
        (voiceRunTrace f g n)
      ∧ ∀ k, (voiceTurnTrace f g k).head? = some (TurnAction.captureStart k) := by
  constructor
  · induction n with
    | zero => exact List.Pairwise.nil
    | succ n ihp =>
        simp only [voiceRunTrace]
        rw [List.pairwise_append]
        refine ⟨ihp, pairwise_turn_const _ (mem_voiceTurnTrace_turn f g (n + 1)), ?_⟩
        intro x hx y hy
        have hx' := mem_voiceRunTrace_turn_le f g n x hx
        have hy' := mem_voiceTurnTrace_turn f g (n + 1) y hy
        omega
  · intro k
    rfl

/-- C5: Transcription-stage shutdown order.  In the trace of
`_stt_stream`, the connection close is the final action and is
immediately preceded by awaiting the cancelled sender task, which is
immediately preceded by cancelling it; no close, await or cancel occurs
earlier in the trace, so the connection is never closed inside the
stage's shutdown path while the sender task is still running.  The
`finally` block of `VoicePipeline.buffer` performs the same three
actions in the same order. -/
theorem shutdown_order (received : List VoiceAgentEvent) :
    (∃ pre : List StageAction,
        sttStreamTrace received
            = pre ++ [StageAction.cancelSender, StageAction.awaitSender,
                StageAction.closeConnection]
          ∧ StageAction.cancelSender ∉ pre ∧ StageAction.awaitSender ∉ pre
          ∧ StageAction.closeConnection ∉ pre)
      ∧ bufferFinallyActions
          = [StageAction.cancelSender, StageAction.awaitSender,
              StageAction.closeConnection] := by
  refine ⟨⟨received.map StageAction.yieldEvent, rfl, ?_, ?_, ?_⟩, rfl⟩ <;>
    simp [List.mem_map]

/-- C6 counterexample: with the agent uninitialized, `_agent_stream`
fed two final transcripts raises the `RuntimeError` at the first one and
terminates; the second transcript is never processed nor re-emitted, so
the stage does not proceed to listen for the next turn after the error. -/
theorem agent_not_ready_counterexample :
    agentStream none 0 [VoiceAgentEvent.sttOutput "hi" 1,
        VoiceAgentEvent.sttOutput "again" 2]
        = ([VoiceAgentEvent.sttOutput "hi" 1], some agentErrorMsg)
      ∧ VoiceAgentEvent.sttOutput "again" 2
          ∉ (agentStream none 0 [VoiceAgentEvent.sttOutput "hi" 1,
              VoiceAgentEvent.sttOutput "again" 2]).1 := by decide

/-- C6 amended: if `_agent_stream` receives a final transcript while the
agent collaborator is `None`, it re-emits that event and then raises the
fatal `RuntimeError` (no retry); the exception terminates the stage's
event stream, so no agent events are produced for that transcript and no
later input event is processed — the stream for that connection ends
rather than proceeding to the next turn. -/
theorem agent_not_ready (nowMs : Nat) (pre post : List VoiceAgentEvent)
    (e : VoiceAgentEvent) (hpre : ∀ x ∈ pre, x.type ≠ "stt_output")
    (he : e.type = "stt_output") :
    agentStream none nowMs (pre ++ e :: post) = (pre ++ [e], some agentErrorMsg) := by
  induction pre with
  | nil => simp [agentStream, he]
  | cons x xs ih =>
      have hx : ¬ x.type = "stt_output" := hpre x (List.mem_cons_self x xs)
      have ih' := ih fun y hy => hpre y (List.mem_cons_of_mem x hy)
      simp only [List.cons_append, agentStream, hx, if_false, List.append_eq, ih']

/-- Witness for `agent_not_ready` at a concrete input: one partial
transcript, then the failing final transcript, then a later event that
is dropped. -/
theorem agent_not_ready_witness :
    agentStream none 5
        ([VoiceAgentEvent.sttChunk "h" 1]
          ++ VoiceAgentEvent.sttOutput "hi" 2 :: [VoiceAgentEvent.sttChunk "x" 3])
      = ([VoiceAgentEvent.sttChunk "h" 1] ++ [VoiceAgentEvent.sttOutput "hi" 2],
          some agentErrorMsg) :=
  agent_not_ready 5 [VoiceAgentEvent.sttChunk "h" 1] [VoiceAgentEvent.sttChunk "x" 3]
    (VoiceAgentEvent.sttOutput "hi" 2) (by decide) (by decide)

/-! ### Receive-loop lemmas -/

lemma bne_empty_and_stripTruthy (t : String) :
    (t != "" && stripTruthy t) = stripTruthy t := by
  by_cases h : t = ""
  · subst h; rfl
  · have hb : (t != "") = true := bne_iff_ne.2 h
    rw [hb, Bool.true_and]

/-- C7: Empty final-transcript suppression.  The transcripts yielded by
`receive_messages` are exactly the transcripts of the formatted `Turn`
messages before the first `Termination` whose text contains a
non-whitespace character: a final transcript that is empty or
whitespace-only produces no output, unformatted (partial) turns and all
other messages produce no output, and every formatted non-blank final
transcript before termination is yielded. -/
theorem empty_final_suppression (msgs : List AAIMessage) :
    receive_messages msgs
      = (msgs.takeWhile (fun m => !m.isTermination)).filterMap
          (fun m => match m with
            | AAIMessage.turn t true => if stripTruthy t then some t else none
            | _ => none) := by
  induction msgs with
  | nil => rfl
  | cons m rest ih =>
      cases m with
      | sessionBegin id =>
          simpa [receive_messages, AAIMessage.isTermination,
            List.takeWhile_cons, List.filterMap_cons] using ih
      | termination => rfl
      | malformed =>
          simpa [receive_messages, AAIMessage.isTermination,
            List.takeWhile_cons, List.filterMap_cons] using ih
      | other err =>
          simpa [receive_messages, AAIMessage.isTermination,
            List.takeWhile_cons, List.filterMap_cons] using ih
      | turn t fmt =>
          cases fmt with
          | false =>
              simpa [receive_messages, AAIMessage.isTermination,
                List.takeWhile_cons, List.filterMap_cons] using ih
          | true =>
              have hterm : (AAIMessage.turn t true).isTermination = false := rfl
              simp only [receive_messages, bne_empty_and_stripTruthy, hterm,
                List.takeWhile_cons, Bool.not_false, if_true, List.filterMap_cons]
              cases hst : stripTruthy t <;> simp [hst, ih]

/-! ### Sender-loop lemmas -/

lemma send_audio_loop_id : ∀ chunks : List Bytes, send_audio_loop chunks = chunks := by
  intro chunks
  induction chunks with
  | nil => rfl
  | cons c rest ih => rw [send_audio_loop, ih]

lemma pump_audio_spec :
    ∀ (chunks : List Bytes) (buf : Bytes),
      pump_audio buf chunks
        = (buf ++ chunks.flatten, chunks.filter (fun c => !c.isEmpty)) := by
  intro chunks
  induction chunks with
  | nil => intro buf; simp [pump_audio]
  | cons c rest ih =>
      intro buf
      by_cases h : c.isEmpty = true
      · have hc : c = [] := List.isEmpty_iff.1 h
        subst hc
        simp [pump_audio, ih, List.filter_cons]
      · rw [show pump_audio buf (c :: rest)
            = ((pump_audio (buf ++ c) rest).1, c :: (pump_audio (buf ++ c) rest).2) from by
              simp [pump_audio, h]]
        rw [ih (buf ++ c)]
        simp [List.filter_cons, h, List.flatten_cons, List.append_assoc]

/-- C8 counterexample: the `_stt_stream` sender loop of `main.py`
forwards a zero-length audio frame to the STT collaborator — feeding it
the single empty frame, the empty frame is in the forwarded output. -/
theorem zero_length_forwarded_counterexample :
    send_audio_loop [([] : Bytes)] = [([] : Bytes)]
      ∧ ([] : Bytes) ∈ send_audio_loop [([] : Bytes)] := by decide

/-- C8 amended: the two sender loops differ.  `pump_audio` in
`VoicePipeline.buffer` drops zero-length frames — it forwards exactly
the non-empty frames, in order, and accumulates their bytes in the turn
buffer — while the `_stt_stream` sender loop of `main.py` forwards every
frame unconditionally, including zero-length ones. -/
theorem zero_length_handling (buf : Bytes) (chunks : List Bytes) :
    send_audio_loop chunks = chunks
      ∧ (pump_audio buf chunks).2 = chunks.filter (fun c => !c.isEmpty)
      ∧ (pump_audio buf chunks).1 = buf ++ chunks.flatten := by
  refine ⟨send_audio_loop_id chunks, ?_, ?_⟩ <;> rw [pump_audio_spec]

/-! ### Event immutability lemmas -/

lemma agentReaction_ts (a : String → List AgentMessage) (nowMs : Nat)
    (e : VoiceAgentEvent) : ∀ x ∈ agentReaction a nowMs e, x.ts = nowMs := by
  intro x hx
  unfold agentReaction at hx
  split at hx
  · unfold agentTurnEvents at hx
    rcases List.mem_append.1 hx with h | h
    · rcases List.mem_flatMap.1 h with ⟨m, _, hm⟩
      cases m with
      | ai text tcs =>
          rcases List.mem_cons.1 hm with h1 | h1
          · subst h1; rfl
          · rcases List.mem_map.1 h1 with ⟨tc, _, h2⟩
            subst h2; rfl
      | tool tcId name content =>
          have h1 := List.mem_singleton.1 hm
          subst h1; rfl
    · have h1 := List.mem_singleton.1 h
      subst h1; rfl
  · exact absurd hx (List.not_mem_nil x)

/-- C9: Event immutability.  In the embedding every stage emits each
passthrough event as the very value it consumed, never a field-modified
copy: every event in `_agent_stream`'s output is either an element of
the input (unchanged) or a freshly constructed event stamped with the
construction-time clock, `process_upstream` re-emits its input exactly,
and each construction helper builds the event directly from its payload
with the current-time timestamp, after which no operation in any stage
rewrites a field. -/
theorem event_immutability (a : String → List AgentMessage) (nowMs : Nat)
    (input : List VoiceAgentEvent) (buf : List String) :
    (∀ e, e ∈ (agentStream (some a) nowMs input).1 → e ∈ input ∨ e.ts = nowMs)
      ∧ (processUpstream buf input).1 = input
      ∧ (∀ audio t, UserInputEvent.create audio t = VoiceAgentEvent.userInput audio t
          ∧ (UserInputEvent.create audio t).ts = t)
      ∧ (∀ s t, (STTChunkEvent.create s t).ts = t ∧ (STTOutputEvent.create s t).ts = t
          ∧ (AgentChunkEvent.create s t).ts = t)
      ∧ (∀ b t, (TTSChunkEvent.create b t).ts = t ∧ (AgentEndEvent.create t).ts = t) := by
  refine ⟨?_, processUpstream_fst input buf, fun audio t => ⟨rfl, rfl⟩,
    fun s t => ⟨rfl, rfl, rfl⟩, fun b t => ⟨rfl, rfl⟩⟩
  intro e he
  rw [agentStream_fst] at he
  rcases List.mem_flatMap.1 he with ⟨x, hx, hmem⟩
  rcases List.mem_cons.1 hmem with h | h
  · subst h; exact Or.inl hx
  · exact Or.inr (agentReaction_ts a nowMs x e h)

/-- Witness for `event_immutability` at a concrete input: the passthrough
occurrence of the input event is the input event itself. -/
theorem event_immutability_witness :
    VoiceAgentEvent.sttChunk "x" 3 ∈ [VoiceAgentEvent.sttChunk "x" 3]
      ∨ (VoiceAgentEvent.sttChunk "x" 3).ts = 7 :=
  (event_immutability (fun _ => []) 7 [VoiceAgentEvent.sttChunk "x" 3] []).1
    (VoiceAgentEvent.sttChunk "x" 3) (by decide)

/-- C10: `HumeTTS.send_text` after `close()`.  From any prior state, once
`close()` has run, sending text that contains a non-whitespace character
raises the `RuntimeError` of `_ensure_connection` — the closed connection
is never silently re-established; sending `None` or whitespace-only text
returns without error, leaving the state unchanged and performing no
socket action (in particular no connection attempt). -/
theorem send_text_after_close (s : HumeTTSState) (t u : String)
    (ht : stripTruthy t = true) (hu : stripTruthy u = false) :
    HumeTTS.send_text (HumeTTS.close s).1 (some t) = Except.error humeClosedErrorMsg
      ∧ HumeTTS.send_text (HumeTTS.close s).1 none
          = Except.ok ((HumeTTS.close s).1, ([] : List HumeAction))
      ∧ HumeTTS.send_text (HumeTTS.close s).1 (some u)
          = Except.ok ((HumeTTS.close s).1, ([] : List HumeAction)) := by
  refine ⟨?_, rfl, ?_⟩
  · simp [HumeTTS.send_text, HumeTTS.close, ht, HumeTTS.ensure_connection]
  · simp [HumeTTS.send_text, hu]

/-- Witness for `send_text_after_close` at a concrete state and texts. -/
theorem send_text_after_close_witness :
    HumeTTS.send_text (HumeTTS.close ⟨false, true⟩).1 (some "hello")
        = Except.error humeClosedErrorMsg
      ∧ HumeTTS.send_text (HumeTTS.close ⟨false, true⟩).1 none
          = Except.ok ((HumeTTS.close ⟨false, true⟩).1, ([] : List HumeAction))
      ∧ HumeTTS.send_text (HumeTTS.close ⟨false, true⟩).1 (some "  ")
          = Except.ok ((HumeTTS.close ⟨false, true⟩).1, ([] : List HumeAction)) :=
  send_text_after_close ⟨false, true⟩ "hello" "  " (by decide) (by decide)

end VoiceSandwich
